import Mathlib

/-!
Shallow embedding of the storage and synchronization core of the `syncer`
network filesystem, together with proofs about the claims of its
specification.

The embedding follows the Rust sources:
  - `src/filesystem/vclock.rs`  (vector clocks and their comparison),
  - `src/filesystem/entry.rs`   (inode entries and the three-way merge),
  - `src/backingstore/blobstorage.rs` (blob store, write-back cache,
    `sync_node`, `save_node`, `get_blob`/`read`),
  - `src/backingstore/metadatadb.rs`  (the SQL catalog: `nodes`, `blobs`
    and `peers` tables).

Rust `BTreeMap`s are modelled as key-sorted association lists, machine
integers as `Int`/`Nat` (no arithmetic here ever nears the 64-bit range),
panics and fallible operations as `Option`, and the BLAKE2 content hash as
an abstract function carried in the state (the proofs never rely on any
property of it beyond it being a function).
-/

namespace Syncer

/-- Association list lookup: the model of map `get` for the ordered maps
(`BTreeMap`) and hash maps (`HashMap`) of the source, which hold each key at
most once. -/
def alookup {κ α : Type} [DecidableEq κ] (k : κ) : List (κ × α) → Option α
  | [] => none
  | p :: rest => if p.1 = k then some p.2 else alookup k rest

/-- Association list insert-or-replace: the model of map `insert`. -/
def ainsert {κ α : Type} [DecidableEq κ] (l : List (κ × α)) (k : κ) (v : α) :
    List (κ × α) :=
  match l with
  | [] => [(k, v)]
  | p :: rest => if p.1 = k then (k, v) :: rest else p :: ainsert rest k v

/-- Ordered insert-or-replace, keeping the list sorted by key: the model of
`BTreeMap::insert`, whose iteration order is ascending by key. -/
def btreeInsert {κ α : Type} [LT κ] [DecidableEq κ]
    [inst : ∀ x y : κ, Decidable (x < y)]
    (l : List (κ × α)) (k : κ) (v : α) : List (κ × α) :=
  match l with
  | [] => [(k, v)]
  | p :: rest =>
    if k < p.1 then (k, v) :: p :: rest
    else if k = p.1 then (k, v) :: rest
    else p :: btreeInsert rest k v

/-- The four outcomes of `VectorClock::cmp` (`src/filesystem/vclock.rs`). -/
inductive VectorOrdering where
  | Less
  | Greater
  | Equal
  | Conflict
deriving DecidableEq, Repr

/-- A vector clock: `BTreeMap<i64 /- peer -/, u64 /- counter -/>` modelled
as an association list (`src/filesystem/vclock.rs`). -/
structure VectorClock where
  peers : List (Int × Nat)
deriving DecidableEq, Repr

/-- Counter of peer `k` in clock `v`: `self.peers.get(k).unwrap_or(&0)`. -/
def vcGet (v : VectorClock) (k : Int) : Nat :=
  match alookup k v.peers with
  | some n => n
  | none => 0

/-- The key sequence iterated by `VectorClock::cmp` and `merge`: the keys of
`self` followed by the keys of `other` (possibly with repeats). -/
def vcKeys (a b : VectorClock) : List Int :=
  a.peers.map Prod.fst ++ b.peers.map Prod.fst

/-- The loop of `VectorClock::cmp` (`vclock.rs` lines 36-52): a state
machine over the pointwise comparisons, returning `Conflict` as soon as
both a strictly-smaller and a strictly-greater component have been seen. -/
def cmpGo (a b : VectorClock) : List Int → VectorOrdering → VectorOrdering
  | [], ord => ord
  | k :: ks, ord =>
    let v1 := vcGet a k
    let v2 := vcGet b k
    if v1 = v2 then cmpGo a b ks ord
    else if v1 < v2 then
      match ord with
      | VectorOrdering.Equal => cmpGo a b ks VectorOrdering.Less
      | VectorOrdering.Less => cmpGo a b ks VectorOrdering.Less
      | VectorOrdering.Greater => VectorOrdering.Conflict
      | VectorOrdering.Conflict => VectorOrdering.Conflict
    else
      match ord with
      | VectorOrdering.Equal => cmpGo a b ks VectorOrdering.Greater
      | VectorOrdering.Greater => cmpGo a b ks VectorOrdering.Greater
      | VectorOrdering.Less => VectorOrdering.Conflict
      | VectorOrdering.Conflict => VectorOrdering.Conflict

/-- `VectorClock::cmp` (`src/filesystem/vclock.rs` lines 31-55). -/
def VectorClock.cmp (a b : VectorClock) : VectorOrdering :=
  cmpGo a b (vcKeys a b) VectorOrdering.Equal

/-- `VectorClock::merge` (`src/filesystem/vclock.rs` lines 57-73):
element-wise maximum over the union of keys, rebuilt as a `BTreeMap`. -/
def VectorClock.merge (a b : VectorClock) : VectorClock :=
  ⟨(vcKeys a b).foldl (fun acc k => btreeInsert acc k (max (vcGet a k) (vcGet b k))) []⟩

/-- Whether some key of `ks` has a strictly smaller counter in `a` than in
`b`; abbreviates the scan the `cmp` state machine performs. -/
def hasLt (a b : VectorClock) (ks : List Int) : Bool :=
  ks.any (fun k => decide (vcGet a k < vcGet b k))

/-- Modelled from the spec: the length-prefixed binary codec (`bincode`,
an external crate, encodes a `BTreeMap<i64, u64>` as a little-endian `u64`
entry count followed by the entries, each key and counter as 8
little-endian bytes). Only used to show that two clocks can compare
`Equal` while encoding differently. -/
def leBytes : Nat → Nat → List Nat
  | 0, _ => []
  | w + 1, n => (n % 256) :: leBytes w (n / 256)

/-- Modelled from the spec: encoding of a vector clock under the
length-prefixed binary codec; see `leBytes`. Keys are `i64`, so they are
encoded via their representative modulo `2 ^ 64`. -/
def encodeVClock (v : VectorClock) : List Nat :=
  leBytes 8 v.peers.length ++
    v.peers.foldr (fun kv acc => leBytes 8 (kv.1.emod (2 ^ 64)).toNat ++ leBytes 8 kv.2 ++ acc) []

/-- `time::Timespec`, with its derived lexicographic order on
`(sec, nsec)`. -/
structure Timespec where
  sec : Int
  nsec : Int
deriving DecidableEq, Repr

/-- The strict order of `time::Timespec` (derived `Ord`: `sec` first, then
`nsec`). -/
def tsLt (a b : Timespec) : Bool :=
  if a.sec = b.sec then decide (a.nsec < b.nsec) else decide (a.sec < b.sec)

/-- `std::cmp::max` on `Timespec`: returns the second argument when the two
compare equal. -/
def tsMax (a b : Timespec) : Timespec :=
  if tsLt b a then a else b

/-- `FileTypeDef` (`src/filesystem/entry.rs` lines 25-34). -/
inductive FileTypeDef where
  | NamedPipe
  | CharDevice
  | BlockDevice
  | Directory
  | RegularFile
  | Symlink
  | Socket
deriving DecidableEq, Repr

/-- `NodeId = (peer id, inode index)` (`src/backingstore/mod.rs` line 20). -/
abbrev NodeId := Int × Int

/-- A 20-byte content digest (`BlobHash = [u8; HASHSIZE]`), modelled as a
byte list. -/
abbrev BlobHash := List Nat

/-- `FSEntry` (`src/filesystem/entry.rs` lines 83-112): one revision of an
inode. The `children` and `xattrs` `BTreeMap`s are key-sorted association
lists. -/
structure FSEntry where
  clock : Timespec
  vclock : VectorClock
  peernum : Int
  filetype : FileTypeDef
  perm : Nat
  uid : Nat
  gid : Nat
  flags : Nat
  rdev : Nat
  atime : Timespec
  mtime : Timespec
  ctime : Timespec
  crtime : Timespec
  chgtime : Timespec
  bkuptime : Timespec
  size : Nat
  blocks : List BlobHash
  children : List (String × (NodeId × FileTypeDef))
  xattrs : List (String × List Nat)
deriving DecidableEq, Repr

/-- `FSEntry::timeval` (`entry.rs` lines 256-258): the wall-clock pair as
milliseconds; Rust `i64` division truncates toward zero, hence `Int.tdiv`. -/
def FSEntry.timeval (e : FSEntry) : Int :=
  e.clock.sec * 1000 + Int.tdiv e.clock.nsec 1000000

/-- `FSEntry::cmp_vclock` (`entry.rs` lines 252-254). -/
def FSEntry.cmp_vclock (e o : FSEntry) : VectorOrdering :=
  e.vclock.cmp o.vclock

/-- The `merge_3way!` macro of `entry.rs` (lines 50-58): keep `left` unless
`left` agrees with `base`, in which case keep `right`. -/
def threeWay {α : Type} [DecidableEq α] (base l r : α) : α :=
  if l = base then r else l

/-- The `merge_3way_hash!` macro of `entry.rs` (lines 60-80): for each key
of either side, three-way-merge the optional values and keep the key only
when the result is `Some`, rebuilding a `BTreeMap`. -/
def merge3wayMap {α : Type} [DecidableEq α]
    (base l r : List (String × α)) : List (String × α) :=
  let keys := l.map Prod.fst ++ r.map Prod.fst
  keys.foldl (fun acc k =>
    match threeWay (alookup k base) (alookup k l) (alookup k r) with
    | some m => btreeInsert acc k m
    | none => acc) []

/-- The `(left, right)` selection of `FSEntry::merge_3way` (`entry.rs`
lines 263-264): `first` is taken as `left` when
`first.clock > second.clock || first.peernum > second.peernum`. -/
def mergeSides (first second : FSEntry) : FSEntry × FSEntry :=
  if tsLt second.clock first.clock || decide (second.peernum < first.peernum)
  then (first, second) else (second, first)

/-- `FSEntry::merge_3way` (`entry.rs` lines 260-287). The source asserts
`first.filetype == second.filetype`; the assertion failure (a panic) is
modelled as `none`. -/
def FSEntry.merge_3way (base first second : FSEntry) : Option FSEntry :=
  if first.filetype = second.filetype then
    let lr := mergeSides first second
    let left := lr.1
    let right := lr.2
    some {
      clock := tsMax left.clock right.clock
      vclock := left.vclock.merge right.vclock
      peernum := max left.peernum right.peernum
      filetype := left.filetype
      perm := threeWay base.perm left.perm right.perm
      uid := threeWay base.uid left.uid right.uid
      gid := threeWay base.gid left.gid right.gid
      flags := threeWay base.flags left.flags right.flags
      rdev := threeWay base.rdev left.rdev right.rdev
      atime := tsMax left.atime right.atime
      mtime := tsMax left.mtime right.mtime
      ctime := tsMax left.ctime right.ctime
      crtime := tsMax left.crtime right.crtime
      chgtime := tsMax left.chgtime right.chgtime
      bkuptime := tsMax left.bkuptime right.bkuptime
      size := threeWay base.size left.size right.size
      blocks := threeWay base.blocks left.blocks right.blocks
      children := merge3wayMap base.children left.children right.children
      xattrs := merge3wayMap base.xattrs left.xattrs right.xattrs
    }
  else none

/-- An all-defaults inode entry used as concrete input below (an
`FSEntry::new`-style record with every scalar zeroed and maps empty). -/
def entryDefault : FSEntry where
  clock := ⟨0, 0⟩
  vclock := ⟨[]⟩
  peernum := 0
  filetype := FileTypeDef.RegularFile
  perm := 0
  uid := 0
  gid := 0
  flags := 0
  rdev := 0
  atime := ⟨0, 0⟩
  mtime := ⟨0, 0⟩
  ctime := ⟨0, 0⟩
  crtime := ⟨0, 0⟩
  chgtime := ⟨0, 0⟩
  bkuptime := ⟨0, 0⟩
  size := 0
  blocks := []
  children := []
  xattrs := []

/-- Concrete merge input: a side whose wall clock is older but whose peer
number is larger than the other side's. -/
def cA : FSEntry :=
  { entryDefault with clock := ⟨0, 0⟩, peernum := 5, perm := 1 }

/-- Concrete merge input: the side with the newer wall clock and the
smaller peer number. -/
def cB : FSEntry :=
  { entryDefault with clock := ⟨1, 0⟩, peernum := 3, perm := 2 }

/-- Concrete side-selection input with the older wall clock and the larger
peer number. -/
def cD1 : FSEntry :=
  { entryDefault with clock := ⟨2, 0⟩, peernum := 9 }

/-- Concrete side-selection input with the newer wall clock and the smaller
peer number. -/
def cD2 : FSEntry :=
  { entryDefault with clock := ⟨7, 0⟩, peernum := 4, perm := 6 }

/-- State of `BlobStorage` (`src/backingstore/blobstorage.rs` lines
104-114) as far as the block paths touch it: the local `blobs/` directory
and the remote store as digest-indexed files, the `written_blobs` and
`touched_blobs` batch buffers, and the per-inode write-back `blob_cache`.
The BLAKE2 digest of a byte sequence is the abstract `hashFn`, and `now`
stands for the `timeval()` wall clock. -/
structure BlobStorage where
  hashFn : List Nat → BlobHash
  now : Int
  files : List (BlobHash × List Nat)
  remote : List (BlobHash × List Nat)
  written_blobs : List (BlobHash × Nat × Int)
  touched_blobs : List (BlobHash × Int × Nat)
  blob_cache : List (NodeId × List (Nat × List Nat))

/-- `Blob::read` (`blobstorage.rs` lines 77-82): assert `offset` in range
(panic modelled as `none`), then slice up to the end of the data. -/
def blobRead (data : List Nat) (offset bytes : Nat) : Option (List Nat) :=
  if offset < data.length then
    some ((data.take (min (offset + bytes) data.length)).drop offset)
  else none

/-- `Blob::store` (`blobstorage.rs` lines 63-75): write the file only when
no file of that name (digest) exists yet. -/
def storeFile (files : List (BlobHash × List Nat)) (h : BlobHash) (data : List Nat) :
    List (BlobHash × List Nat) :=
  if (alookup h files).isSome then files else (h, data) :: files

/-- `BlobStorage::store_blob` (`blobstorage.rs` lines 228-237): hash, store
the file, record the digest in the `written_blobs` batch. -/
def storeBlob (st : BlobStorage) (data : List Nat) : BlobHash × BlobStorage :=
  let h := st.hashFn data
  (h, { st with files := storeFile st.files h data,
                written_blobs := st.written_blobs ++ [(h, data.length, st.now)] })

/-- The drain loop of `BlobStorage::sync_node` (`blobstorage.rs` lines
205-208): store every cached block, collecting the `(index, digest)`
pairs. -/
def syncBlocks (st : BlobStorage) :
    List (Nat × List Nat) → BlobStorage × List (Nat × BlobHash)
  | [] => (st, [])
  | (i, data) :: rest =>
    let hs := storeBlob st data
    let res := syncBlocks hs.2 rest
    (res.1, (i, hs.1) :: res.2)

/-- `BlobStorage::sync_node` (`blobstorage.rs` lines 201-211): remove the
inode's block map from the write-back cache and store each drained block. -/
def syncNode (st : BlobStorage) (node : NodeId) :
    BlobStorage × List (Nat × BlobHash) :=
  match alookup node st.blob_cache with
  | none => (st, [])
  | some blocks =>
    syncBlocks
      { st with blob_cache := st.blob_cache.filter (fun p => !(decide (p.1 = node))) }
      blocks

/-- `BlobStorage::real_fetch_from_server` (`blobstorage.rs` lines 571-582):
an rsync pull of the digest-named remote file into the local `blobs/`
directory; it overwrites any partial local file and fails when the remote
file is absent. -/
def realFetch (st : BlobStorage) (h : BlobHash) : Bool × BlobStorage :=
  match alookup h st.remote with
  | some data => (true, { st with files := ainsert st.files h data })
  | none => (false, st)

/-- `BlobStorage::get_blob` (`blobstorage.rs` lines 213-226) for an empty
readahead list: fetch the digest from the server when the local file is
missing, load it, and record it in the `touched_blobs` batch. The
fire-and-forget readahead threads are not part of this sequential model. -/
def getBlob (st : BlobStorage) (h : BlobHash) : Option (List Nat × BlobStorage) :=
  let fetched : Option BlobStorage :=
    if (alookup h st.files).isSome then some st
    else
      match realFetch st h with
      | (true, st1) => some st1
      | (false, _) => none
  match fetched with
  | none => none
  | some st1 =>
    match alookup h st1.files with
    | none => none
    | some data =>
      some (data, { st1 with touched_blobs := ainsert st1.touched_blobs h (st1.now, data.length) })

/-- `BlobStorage::read` (`blobstorage.rs` lines 166-177): serve from the
write-back cache when the block is cached, otherwise load the blob by
digest and slice it. -/
def bsRead (st : BlobStorage) (node : NodeId) (block : Nat) (h : BlobHash)
    (offset bytes : Nat) : Option (List Nat × BlobStorage) :=
  let cached : Option (List Nat) :=
    match alookup node st.blob_cache with
    | some blocks => alookup block blocks
    | none => none
  match cached with
  | some data => (blobRead data offset bytes).map (fun d => (d, st))
  | none =>
    match getBlob st h with
    | none => none
    | some (data, st1) => (blobRead data offset bytes).map (fun d => (d, st1))

/-- `Blob::zero(1).data`: the single zero byte whose digest
`BackingStore::blob_zero` hands out as the unallocated-block placeholder
(`src/backingstore/mod.rs` lines 40 and 54-56); `BackingStore::new` stores
it on disk via `add_blob(&[0])` (line 50). -/
def zeroBlobData : List Nat := [0]

/-- A concrete stand-in for the BLAKE2 digest of the one-byte zero blob. -/
def zeroHash : BlobHash := [7]

/-- The block store right after `BackingStore::new`: the one-byte zero blob
is on local disk under its digest, nothing is cached, the remote is
empty. -/
def c2State : BlobStorage where
  hashFn := fun data => if data = zeroBlobData then zeroHash else []
  now := 0
  files := [(zeroHash, zeroBlobData)]
  remote := []
  written_blobs := []
  touched_blobs := []
  blob_cache := []

/-- One row of the catalog's `nodes` table (`src/backingstore/metadatadb.rs`
lines 63-70), including its SQLite `rowid`. -/
structure NodeRow where
  rowid : Int
  peernum : Int
  id : Int
  hash : BlobHash
  creation : Int
  synced : Bool
deriving DecidableEq, Repr

/-- Largest `rowid` in the table (`0` when empty); SQLite assigns
`max + 1` to a fresh insert. -/
def maxRowid (rows : List NodeRow) : Int :=
  rows.foldl (fun acc r => max acc r.rowid) 0

/-- Whether a row belongs to `(peernum, inode index) = node`. -/
def rowMatches (node : NodeId) (r : NodeRow) : Bool :=
  decide (r.peernum = node.1) && decide (r.id = node.2)

/-- `MetadataDB::node_exists` (`metadatadb.rs` lines 107-113). -/
def nodeExists (rows : List NodeRow) (node : NodeId) : Bool :=
  rows.any (rowMatches node)

/-- `MetadataDB::node_exists_long` (`metadatadb.rs` lines 115-121): an
exact `(peernum, id, hash, creation)` row exists. -/
def nodeExistsLong (rows : List NodeRow) (node : NodeId) (h : BlobHash)
    (creation : Int) : Bool :=
  rows.any (fun r =>
    rowMatches node r && decide (r.hash = h) && decide (r.creation = creation))

/-- `MetadataDB::set_node` (`metadatadb.rs` lines 155-161): an `INSERT`
into a table with `UNIQUE (peernum, id, hash, creation) ON CONFLICT
IGNORE`, so an exact duplicate leaves the table unchanged; otherwise the
row is appended with a fresh `rowid` and `synced = 0`. -/
def insertNodeRow (rows : List NodeRow) (peernum id : Int) (h : BlobHash)
    (creation : Int) : List NodeRow :=
  if nodeExistsLong rows (peernum, id) h creation then rows
  else rows ++ [⟨maxRowid rows + 1, peernum, id, h, creation, false⟩]

/-- The row with the largest `rowid` among a list of candidates
(`ORDER BY rowid DESC LIMIT 1`). -/
def pickMaxRow (l : List NodeRow) : Option NodeRow :=
  l.foldl (fun acc r =>
    match acc with
    | none => some r
    | some m => if m.rowid < r.rowid then some r else some m) none

/-- `MetadataDB::get_node` (`metadatadb.rs` lines 123-129), as the head
row: the matching row with the largest `rowid`. -/
def headRow (rows : List NodeRow) (node : NodeId) : Option NodeRow :=
  pickMaxRow (rows.filter (rowMatches node))

/-- `MetadataDB::get_earlier_node` (`metadatadb.rs` lines 131-137): the
matching row with the largest `rowid` strictly below `maxr`. -/
def earlierRow (rows : List NodeRow) (node : NodeId) (maxr : Int) : Option NodeRow :=
  pickMaxRow (rows.filter (fun r => rowMatches node r && decide (r.rowid < maxr)))

/-- `MetadataDB::set_node_behind` (`metadatadb.rs` lines 163-180): read the
head row, delete it, insert the incoming row, re-insert the old head (which
thereby gets the larger fresh `rowid`). A missing head row is a query
error. -/
def setNodeBehind (rows : List NodeRow) (node : NodeId) (h : BlobHash)
    (creation : Int) : Option (List NodeRow) :=
  match headRow rows node with
  | none => none
  | some hd =>
    let rows1 := rows.filter (fun r => decide (r.rowid ≠ hd.rowid))
    let rows2 := insertNodeRow rows1 node.1 node.2 h creation
    some (insertNodeRow rows2 node.1 node.2 hd.hash hd.creation)

/-- State seen by `BlobStorage::save_node`: the `nodes` table plus the blob
store, the latter modelled as a map from digest to the decoded inode entry
it holds, with `hashFn` standing for `digest(bincode(entry))` (the encoded
bytes themselves never matter to the saving logic). -/
structure Store where
  hashFn : FSEntry → BlobHash
  blobs : List (BlobHash × FSEntry)
  nodes : List NodeRow

/-- `i64::MAX`, the starting upper bound of `read_earlier_node`. -/
def maxI64 : Int := 2 ^ 63 - 1

/-- The loop of `BlobStorage::read_earlier_node` (`blobstorage.rs` lines
304-316): walk the log backward until an entry strictly dominated by
`comparison` is found; a failing query or blob load ends the walk as an
error. The fuel only bounds the walk, which strictly descends through the
finitely many rows, so `nodes.length + 1` steps are never exhausted. -/
def readEarlierLoop (st : Store) (node : NodeId) (comparison : FSEntry) :
    Nat → Int → Option FSEntry
  | 0, _ => none
  | fuel + 1, maxr =>
    match earlierRow st.nodes node maxr with
    | none => none
    | some row =>
      match alookup row.hash st.blobs with
      | none => none
      | some entry =>
        if comparison.cmp_vclock entry = VectorOrdering.Greater then some entry
        else readEarlierLoop st node comparison fuel row.rowid

/-- `BlobStorage::add_blob` at the `Store` level: record the entry's blob
under its digest (the file is only written when absent). -/
def storeEntryBlob (blobs : List (BlobHash × FSEntry)) (h : BlobHash)
    (e : FSEntry) : List (BlobHash × FSEntry) :=
  if (alookup h blobs).isSome then blobs else (h, e) :: blobs

/-- `BlobStorage::save_node` (`blobstorage.rs` lines 254-296): store the
encoded entry as a blob; return early on an exact duplicate row; insert the
first revision directly; otherwise compare vector clocks with the current
head and append, insert behind, warn-and-append, or three-way merge.
Failures (missing head, missing blob, failed decode, failed filetype
assertion) are `none`. -/
def saveNode (st : Store) (node : NodeId) (entry : FSEntry) : Option Store :=
  let h := st.hashFn entry
  let st1 : Store := { st with blobs := storeEntryBlob st.blobs h entry }
  if nodeExistsLong st1.nodes node h entry.timeval then some st1
  else if nodeExists st1.nodes node = false then
    some { st1 with nodes := insertNodeRow st1.nodes node.1 node.2 h entry.timeval }
  else
    match headRow st1.nodes node with
    | none => none
    | some hd =>
      match alookup hd.hash st1.blobs with
      | none => none
      | some currnode =>
        match entry.cmp_vclock currnode with
        | VectorOrdering.Greater =>
          some { st1 with nodes := insertNodeRow st1.nodes node.1 node.2 h entry.timeval }
        | VectorOrdering.Less =>
          match setNodeBehind st1.nodes node h entry.timeval with
          | none => none
          | some rows => some { st1 with nodes := rows }
        | VectorOrdering.Equal =>
          some { st1 with nodes := insertNodeRow st1.nodes node.1 node.2 h entry.timeval }
        | VectorOrdering.Conflict =>
          match readEarlierLoop st1 node entry (st1.nodes.length + 1) maxI64 with
          | none => none
          | some base =>
            match base.merge_3way entry currnode with
            | none => none
            | some merged =>
              let h2 := st1.hashFn merged
              let st2 : Store := { st1 with blobs := storeEntryBlob st1.blobs h2 merged }
              some { st2 with nodes := insertNodeRow st2.nodes node.1 node.2 h2 merged.timeval }

/-- `KEEP_UP_TO_SIZE` (`src/settings.rs`). -/
def KEEP_UP_TO_SIZE : Nat := 65536

/-- `TO_DELETE` (`src/settings.rs`). -/
def TO_DELETE : Nat := 100

/-- One row of the catalog's `blobs` table (`metadatadb.rs` lines 72-78). -/
structure BlobRow where
  hash : BlobHash
  synced : Bool
  present : Bool
  size : Nat
  last_use : Int
deriving DecidableEq, Repr

/-- The `WHERE` clause of `to_delete`:
`synced = 1 AND present = 1 AND size > KEEP_UP_TO_SIZE`. -/
def toDeletePred (r : BlobRow) : Bool :=
  r.synced && r.present && decide (KEEP_UP_TO_SIZE < r.size)

/-- Comparison used by the `ORDER BY last_use ASC` of `to_delete`. -/
def lastUseLe (a b : BlobRow) : Prop :=
  a.last_use ≤ b.last_use

instance : DecidableRel lastUseLe := fun a b => Int.decLe a.last_use b.last_use

instance : IsTotal BlobRow lastUseLe := ⟨fun a b => Int.le_total a.last_use b.last_use⟩

instance : IsTrans BlobRow lastUseLe := ⟨fun _ _ _ h1 h2 => le_trans h1 h2⟩

/-- The rows selected by `MetadataDB::to_delete` (`metadatadb.rs` lines
299-314): filter by `toDeletePred`, order by `last_use` ascending, keep at
most `TO_DELETE`. -/
def toDeleteRows (rows : List BlobRow) : List BlobRow :=
  (List.insertionSort lastUseLe (rows.filter toDeletePred)).take TO_DELETE

/-- `MetadataDB::to_delete`, returning the `(digest, size)` pairs of the
selected rows. -/
def toDelete (rows : List BlobRow) : List (BlobHash × Nat) :=
  (toDeleteRows rows).map (fun r => (r.hash, r.size))

/-- `MetadataDB::get_peer` (`metadatadb.rs` lines 147-153):
`SELECT COALESCE(SUM(offset), 0) FROM peers WHERE id = ?1`; `peers.id` is
the primary key, so the sum ranges over at most one row. -/
def getPeer (peers : List (Int × Int)) (id : Int) : Int :=
  ((peers.filter (fun r => decide (r.1 = id))).map Prod.snd).foldl (· + ·) 0

/-- A concrete `Store` whose `nodes` table already holds the row that
saving `cA` at node `(0, 0)` would produce. -/
def c6Store : Store where
  hashFn := fun e => [e.perm]
  blobs := []
  nodes := [⟨1, 0, 0, [1], 0, false⟩]

/-- A concrete block store whose write-back cache holds one two-byte block
for node `(0, 0)`. -/
def c5State : BlobStorage where
  hashFn := fun data => [data.length]
  now := 0
  files := []
  remote := []
  written_blobs := []
  touched_blobs := []
  blob_cache := [((0, 0), [(0, [9, 9])])]

/-- A concrete synced, present catalog row larger than `KEEP_UP_TO_SIZE`. -/
def c7Row : BlobRow := ⟨[1], true, true, 70000, 5⟩

/-- A clock holding peer `0` with an explicit zero counter. -/
def vc9a : VectorClock := ⟨[(0, 0)]⟩

/-- The empty clock. -/
def vc9b : VectorClock := ⟨[]⟩

/-- Claim C1: commutativity of `merge_3way` fails on the code. At these
same-filetype inputs (`cA` older clock, larger peer number; `cB` newer
clock, smaller peer number) the boolean disjunction at `entry.rs` line 263
declares both arguments "large", so the two argument orders pick different
`left` sides and the merged `perm` differs. -/
theorem merge_3way_not_commutative_eval :
    cA.filetype = cB.filetype ∧
    FSEntry.merge_3way entryDefault cA cB ≠ FSEntry.merge_3way entryDefault cB cA := by
  decide

/-- Claim C3: the `left` selection of `merge_3way` is not the
lexicographically greater `(clock, peernum)` pair and is not invariant
under argument order: `cD2`'s clock is strictly greater (so `cD2` is the
lexicographically greater side), yet `mergeSides cD1 cD2` picks `cD1` as
`left`, while the swapped call picks `cD2`. -/
theorem merge_sides_not_lexicographic_eval :
    tsLt cD1.clock cD2.clock = true ∧
    (mergeSides cD1 cD2).1 = cD1 ∧
    (mergeSides cD2 cD1).1 = cD2 ∧
    cD1 ≠ cD2 := by
  decide

/-- Claim C2: reading 100 bytes of a block carrying the zero digest does
not return 100 zeroed bytes: `get_blob` has no special case for the
placeholder digest, so the one-byte zero blob stored at startup is loaded
and `Blob::read` clamps the slice to its single byte. -/
theorem zero_digest_read_eval :
    (bsRead c2State (0, 0) 0 zeroHash 0 100).map Prod.fst = some zeroBlobData ∧
    zeroBlobData ≠ List.replicate 100 0 := by
  decide

/-- Claim C10: a peer id with no `peers` row yields offset `0` (the
`COALESCE(SUM(offset), 0)` of an empty selection), not an error, so the
first consumption of that peer's log starts at the beginning of the file. -/
theorem get_peer_missing_returns_zero (peers : List (Int × Int)) (id : Int)
    (h : ∀ r ∈ peers, r.1 ≠ id) : getPeer peers id = 0 := by
  unfold getPeer
  have hf : peers.filter (fun r => decide (r.1 = id)) = [] := by
    rw [List.filter_eq_nil_iff]
    intro r hr
    simp [h r hr]
  rw [hf]
  rfl

/-- Witness for `get_peer_missing_returns_zero` at a one-row table whose
row belongs to another peer. -/
theorem get_peer_missing_returns_zero_witness :
    getPeer [((3 : Int), (44 : Int))] 5 = 0 :=
  get_peer_missing_returns_zero [(3, 44)] 5 (by decide)

/-- Claim C6: when an exact `(node, digest, logical clock)` row already
exists, `save_node` succeeds and leaves the `nodes` table unchanged: the
duplicate check at `blobstorage.rs` lines 257-260 returns before any log
mutation. -/
theorem save_node_duplicate_idempotent (st : Store) (node : NodeId) (entry : FSEntry)
    (h : nodeExistsLong st.nodes node (st.hashFn entry) entry.timeval = true) :
    ∃ st2, saveNode st node entry = some st2 ∧ st2.nodes = st.nodes := by
  refine ⟨{ st with blobs := storeEntryBlob st.blobs (st.hashFn entry) entry }, ?_, rfl⟩
  unfold saveNode
  simp [h]

/-- Witness for `save_node_duplicate_idempotent`: saving `cA` at `(0, 0)`
into `c6Store`, whose table already holds the exact row. -/
theorem save_node_duplicate_idempotent_witness :
    ∃ st2, saveNode c6Store (0, 0) cA = some st2 ∧ st2.nodes = c6Store.nodes :=
  save_node_duplicate_idempotent c6Store (0, 0) cA (by decide)

/-- Claim C7: every row offered by `to_delete` is synced, present and
larger than `KEEP_UP_TO_SIZE`; at most `TO_DELETE` rows are returned; and
they come ordered by `last_use` ascending. -/
theorem to_delete_eligible_bounded_sorted (rows : List BlobRow) :
    (∀ r ∈ toDeleteRows rows,
      r.synced = true ∧ r.present = true ∧ KEEP_UP_TO_SIZE < r.size) ∧
    (toDelete rows).length ≤ TO_DELETE ∧
    List.Pairwise lastUseLe (toDeleteRows rows) ∧
    toDelete rows = (toDeleteRows rows).map (fun r => (r.hash, r.size)) := by
  refine ⟨?_, ?_, ?_, rfl⟩
  · intro r hr
    have hr2 : r ∈ List.insertionSort lastUseLe (rows.filter toDeletePred) :=
      List.mem_of_mem_take hr
    rw [List.mem_insertionSort] at hr2
    have hp := List.of_mem_filter hr2
    simp only [toDeletePred, Bool.and_eq_true, decide_eq_true_eq] at hp
    exact ⟨hp.1.1, hp.1.2, hp.2⟩
  · rw [toDelete, List.length_map]
    exact List.length_take_le TO_DELETE _
  · exact List.Pairwise.sublist (List.take_sublist _ _)
      (List.sorted_insertionSort lastUseLe (rows.filter toDeletePred))

/-- Witness for `to_delete_eligible_bounded_sorted` at a one-row catalog
containing `c7Row`. -/
theorem to_delete_eligible_bounded_sorted_witness :
    c7Row.synced = true ∧ c7Row.present = true ∧ KEEP_UP_TO_SIZE < c7Row.size :=
  (to_delete_eligible_bounded_sorted [c7Row]).1 c7Row (by decide)

theorem alookup_eq_none_of_not_mem {κ α : Type} [DecidableEq κ]
    {l : List (κ × α)} {k : κ} (h : k ∉ l.map Prod.fst) : alookup k l = none := by
  induction l with
  | nil => rfl
  | cons p rest ih =>
    have h1 : p.1 ≠ k := fun he => h (by simp [he])
    have h2 : k ∉ rest.map Prod.fst := fun hm => h (by simp [hm])
    simp [alookup, h1, ih h2]

theorem vcGet_eq_zero_of_not_mem {v : VectorClock} {k : Int}
    (h : k ∉ v.peers.map Prod.fst) : vcGet v k = 0 := by
  simp [vcGet, alookup_eq_none_of_not_mem h]

theorem cmpGo_less (a b : VectorClock) (ks : List Int) :
    cmpGo a b ks VectorOrdering.Less =
      (if hasLt b a ks then VectorOrdering.Conflict else VectorOrdering.Less) := by
  induction ks with
  | nil => simp [cmpGo, hasLt]
  | cons k ks ih =>
    by_cases h1 : vcGet a k = vcGet b k
    · have h2 : ¬ vcGet b k < vcGet a k := by omega
      have h3 : ¬ vcGet a k < vcGet b k := by omega
      simp [cmpGo, hasLt, h1, h2, h3] at ih ⊢
      exact ih
    · by_cases h2 : vcGet a k < vcGet b k
      · have h3 : ¬ vcGet b k < vcGet a k := by omega
        simp [cmpGo, hasLt, h1, h2, h3] at ih ⊢
        exact ih
      · have h3 : vcGet b k < vcGet a k := by omega
        simp [cmpGo, hasLt, h1, h2, h3]

theorem cmpGo_greater (a b : VectorClock) (ks : List Int) :
    cmpGo a b ks VectorOrdering.Greater =
      (if hasLt a b ks then VectorOrdering.Conflict else VectorOrdering.Greater) := by
  induction ks with
  | nil => simp [cmpGo, hasLt]
  | cons k ks ih =>
    by_cases h1 : vcGet a k = vcGet b k
    · have h3 : ¬ vcGet a k < vcGet b k := by omega
      simp [cmpGo, hasLt, h1, h3] at ih ⊢
      exact ih
    · by_cases h2 : vcGet a k < vcGet b k
      · simp [cmpGo, hasLt, h1, h2]
      · have h3 : vcGet b k < vcGet a k := by omega
        simp [cmpGo, hasLt, h1, h2, h3] at ih ⊢
        exact ih

theorem cmpGo_equal (a b : VectorClock) (ks : List Int) :
    cmpGo a b ks VectorOrdering.Equal =
      (if hasLt a b ks then
        (if hasLt b a ks then VectorOrdering.Conflict else VectorOrdering.Less)
       else
        (if hasLt b a ks then VectorOrdering.Greater else VectorOrdering.Equal)) := by
  induction ks with
  | nil => simp [cmpGo, hasLt]
  | cons k ks ih =>
    by_cases h1 : vcGet a k = vcGet b k
    · have h2 : ¬ vcGet b k < vcGet a k := by omega
      have h3 : ¬ vcGet a k < vcGet b k := by omega
      simp [cmpGo, hasLt, h1, h2, h3] at ih ⊢
      exact ih
    · by_cases h2 : vcGet a k < vcGet b k
      · have h3 : ¬ vcGet b k < vcGet a k := by omega
        simp [cmpGo, hasLt, h1, h2, h3, cmpGo_less]
      · have h3 : vcGet b k < vcGet a k := by omega
        simp [cmpGo, hasLt, h1, h2, h3, cmpGo_greater]

theorem hasLt_vcKeys_iff (a b : VectorClock) :
    hasLt a b (vcKeys a b) = true ↔ ∃ k, vcGet a k < vcGet b k := by
  constructor
  · intro h
    rcases List.any_eq_true.1 h with ⟨k, _, hlt⟩
    exact ⟨k, of_decide_eq_true hlt⟩
  · rintro ⟨k, hk⟩
    apply List.any_eq_true.2
    refine ⟨k, ?_, decide_eq_true hk⟩
    have hb : vcGet b k ≠ 0 := by omega
    have hmem : k ∈ b.peers.map Prod.fst := by
      by_contra hmem
      exact hb (vcGet_eq_zero_of_not_mem hmem)
    exact List.mem_append.2 (Or.inr hmem)

theorem hasGt_vcKeys_iff (a b : VectorClock) :
    hasLt b a (vcKeys a b) = true ↔ ∃ k, vcGet b k < vcGet a k := by
  constructor
  · intro h
    rcases List.any_eq_true.1 h with ⟨k, _, hlt⟩
    exact ⟨k, of_decide_eq_true hlt⟩
  · rintro ⟨k, hk⟩
    apply List.any_eq_true.2
    refine ⟨k, ?_, decide_eq_true hk⟩
    have ha : vcGet a k ≠ 0 := by omega
    have hmem : k ∈ a.peers.map Prod.fst := by
      by_contra hmem
      exact ha (vcGet_eq_zero_of_not_mem hmem)
    exact List.mem_append.2 (Or.inl hmem)

theorem cmp_spec (a b : VectorClock) :
    (a.cmp b = VectorOrdering.Less ↔
      (∃ k, vcGet a k < vcGet b k) ∧ ∀ k, vcGet a k ≤ vcGet b k) ∧
    (a.cmp b = VectorOrdering.Greater ↔
      (∃ k, vcGet b k < vcGet a k) ∧ ∀ k, vcGet b k ≤ vcGet a k) ∧
    (a.cmp b = VectorOrdering.Equal ↔ ∀ k, vcGet a k = vcGet b k) ∧
    (a.cmp b = VectorOrdering.Conflict ↔
      (∃ k, vcGet a k < vcGet b k) ∧ ∃ k, vcGet b k < vcGet a k) := by
  have hiffL := hasLt_vcKeys_iff a b
  have hiffG := hasGt_vcKeys_iff a b
  unfold VectorClock.cmp
  rw [cmpGo_equal]
  cases hL : hasLt a b (vcKeys a b) with
  | false =>
    rw [hL] at hiffL
    simp only [Bool.false_eq_true, false_iff, not_exists, not_lt] at hiffL
    cases hG : hasLt b a (vcKeys a b) with
    | false =>
      rw [hG] at hiffG
      simp only [Bool.false_eq_true, false_iff, not_exists, not_lt] at hiffG
      simp only [Bool.false_eq_true, if_false, eq_self_iff_true, if_true, reduceCtorEq,
        false_iff, true_iff]
      refine ⟨?_, ?_, ?_, ?_⟩
      · rintro ⟨⟨k, hk⟩, -⟩
        have := hiffL k
        omega
      · rintro ⟨⟨k, hk⟩, -⟩
        have := hiffG k
        omega
      · intro k
        have := hiffL k
        have := hiffG k
        omega
      · rintro ⟨⟨k, hk⟩, -⟩
        have := hiffL k
        omega
    | true =>
      rw [hG] at hiffG
      simp only [true_iff] at hiffG
      simp only [Bool.false_eq_true, if_false, eq_self_iff_true, if_true, reduceCtorEq,
        false_iff, true_iff]
      refine ⟨?_, ?_, ?_, ?_⟩
      · rintro ⟨⟨k, hk⟩, -⟩
        have := hiffL k
        omega
      · exact ⟨hiffG, fun k => hiffL k⟩
      · intro hall
        obtain ⟨k, hk⟩ := hiffG
        have := hall k
        omega
      · rintro ⟨⟨k, hk⟩, -⟩
        have := hiffL k
        omega
  | true =>
    rw [hL] at hiffL
    simp only [true_iff] at hiffL
    cases hG : hasLt b a (vcKeys a b) with
    | false =>
      rw [hG] at hiffG
      simp only [Bool.false_eq_true, false_iff, not_exists, not_lt] at hiffG
      simp only [Bool.false_eq_true, if_false, eq_self_iff_true, if_true, reduceCtorEq,
        false_iff, true_iff]
      refine ⟨?_, ?_, ?_, ?_⟩
      · exact ⟨hiffL, fun k => hiffG k⟩
      · rintro ⟨⟨k, hk⟩, -⟩
        have := hiffG k
        omega
      · intro hall
        obtain ⟨k, hk⟩ := hiffL
        have := hall k
        omega
      · rintro ⟨-, k, hk⟩
        have := hiffG k
        omega
    | true =>
      rw [hG] at hiffG
      simp only [true_iff] at hiffG
      simp only [eq_self_iff_true, if_true, reduceCtorEq, false_iff, true_iff]
      refine ⟨?_, ?_, ?_, ?_⟩
      · rintro ⟨-, hle⟩
        obtain ⟨k, hk⟩ := hiffG
        have := hle k
        omega
      · rintro ⟨-, hle⟩
        obtain ⟨k, hk⟩ := hiffL
        have := hle k
        omega
      · intro hall
        obtain ⟨k, hk⟩ := hiffL
        have := hall k
        omega
      · exact ⟨hiffL, hiffG⟩

theorem cmp_eq_Less_iff (a b : VectorClock) :
    a.cmp b = VectorOrdering.Less ↔
      (∃ k, vcGet a k < vcGet b k) ∧ ∀ k, vcGet a k ≤ vcGet b k :=
  (cmp_spec a b).1

theorem cmp_eq_Greater_iff (a b : VectorClock) :
    a.cmp b = VectorOrdering.Greater ↔
      (∃ k, vcGet b k < vcGet a k) ∧ ∀ k, vcGet b k ≤ vcGet a k :=
  (cmp_spec a b).2.1

theorem cmp_eq_Equal_iff (a b : VectorClock) :
    a.cmp b = VectorOrdering.Equal ↔ ∀ k, vcGet a k = vcGet b k :=
  (cmp_spec a b).2.2.1

theorem cmp_eq_Conflict_iff (a b : VectorClock) :
    a.cmp b = VectorOrdering.Conflict ↔
      (∃ k, vcGet a k < vcGet b k) ∧ ∃ k, vcGet b k < vcGet a k :=
  (cmp_spec a b).2.2.2

/-- Claim C4: `VectorClock::cmp` is a partial order: every clock compares
`Equal` to itself; `cmp a b = Less` exactly when `cmp b a = Greater`; and
`Less` is transitive. -/
theorem vclock_cmp_partial_order :
    (∀ v : VectorClock, v.cmp v = VectorOrdering.Equal) ∧
    (∀ a b : VectorClock,
      (a.cmp b = VectorOrdering.Less ↔ b.cmp a = VectorOrdering.Greater)) ∧
    (∀ a b c : VectorClock, a.cmp b = VectorOrdering.Less →
      b.cmp c = VectorOrdering.Less → a.cmp c = VectorOrdering.Less) := by
  refine ⟨?_, ?_, ?_⟩
  · intro v
    exact (cmp_eq_Equal_iff v v).2 (fun _ => rfl)
  · intro a b
    rw [cmp_eq_Less_iff, cmp_eq_Greater_iff]
  · intro a b c h1 h2
    rw [cmp_eq_Less_iff] at h1 h2 ⊢
    obtain ⟨⟨k1, hk1⟩, hle1⟩ := h1
    obtain ⟨-, hle2⟩ := h2
    exact ⟨⟨k1, lt_of_lt_of_le hk1 (hle2 k1)⟩, fun k => le_trans (hle1 k) (hle2 k)⟩

/-- Witness for `vclock_cmp_partial_order`: transitivity applied at three
concrete single-peer clocks. -/
theorem vclock_cmp_partial_order_witness :
    VectorClock.cmp ⟨[(0, 1)]⟩ ⟨[(0, 3)]⟩ = VectorOrdering.Less :=
  vclock_cmp_partial_order.2.2 ⟨[(0, 1)]⟩ ⟨[(0, 2)]⟩ ⟨[(0, 3)]⟩ (by decide) (by decide)

/-- Claim C9: the clock `{0 ↦ 0}` and the empty clock are structurally
different and encode differently, yet compare `Equal` both ways; and in
general `cmp` depends only on the per-key counters with absent keys read as
zero, so replacing either operand by any clock with the same counter
function leaves the outcome unchanged. -/
theorem vclock_cmp_ignores_zero_entries :
    (vc9a ≠ vc9b ∧ encodeVClock vc9a ≠ encodeVClock vc9b ∧
      vc9a.cmp vc9b = VectorOrdering.Equal ∧ vc9b.cmp vc9a = VectorOrdering.Equal) ∧
    (∀ a a2 b b2 : VectorClock, (∀ k, vcGet a k = vcGet a2 k) →
      (∀ k, vcGet b k = vcGet b2 k) → a.cmp b = a2.cmp b2) := by
  constructor
  · exact ⟨by decide, by decide, by decide, by decide⟩
  · intro a a2 b b2 ha hb
    cases h : a2.cmp b2 with
    | Less =>
      rw [cmp_eq_Less_iff] at h
      rw [cmp_eq_Less_iff]
      simp only [ha, hb]
      exact h
    | Greater =>
      rw [cmp_eq_Greater_iff] at h
      rw [cmp_eq_Greater_iff]
      simp only [ha, hb]
      exact h
    | Equal =>
      rw [cmp_eq_Equal_iff] at h
      rw [cmp_eq_Equal_iff]
      simp only [ha, hb]
      exact h
    | Conflict =>
      rw [cmp_eq_Conflict_iff] at h
      rw [cmp_eq_Conflict_iff]
      simp only [ha, hb]
      exact h

/-- Witness for `vclock_cmp_ignores_zero_entries`: the operands are padded
with explicit zero entries without changing the comparison. -/
theorem vclock_cmp_ignores_zero_entries_witness :
    VectorClock.cmp ⟨[(3, 0)]⟩ ⟨[(1, 2)]⟩ =
      VectorClock.cmp ⟨[]⟩ ⟨[(1, 2), (8, 0)]⟩ :=
  vclock_cmp_ignores_zero_entries.2 ⟨[(3, 0)]⟩ ⟨[]⟩ ⟨[(1, 2)]⟩ ⟨[(1, 2), (8, 0)]⟩
    (by
      intro k
      by_cases h : (3 : Int) = k <;> simp [vcGet, alookup, h])
    (by
      intro k
      by_cases h1 : (1 : Int) = k
      · simp [vcGet, alookup, h1]
      · by_cases h8 : (8 : Int) = k <;> simp [vcGet, alookup, h1, h8])

theorem alookup_filter_ne {κ α : Type} [DecidableEq κ] (l : List (κ × α)) (k : κ) :
    alookup k (l.filter (fun p => !(decide (p.1 = k)))) = none := by
  induction l with
  | nil => rfl
  | cons p rest ih =>
    by_cases h : p.1 = k
    · simpa [List.filter_cons, h] using ih
    · simpa [List.filter_cons, h, alookup] using ih

theorem alookup_storeFile_self (files : List (BlobHash × List Nat)) (h : BlobHash)
    (data : List Nat) : (alookup h (storeFile files h data)).isSome = true := by
  unfold storeFile
  by_cases hx : (alookup h files).isSome
  · simp [hx]
  · simp [hx, alookup]

theorem alookup_storeFile_mono (files : List (BlobHash × List Nat)) (h h2 : BlobHash)
    (data : List Nat) (hx : (alookup h2 files).isSome = true) :
    (alookup h2 (storeFile files h data)).isSome = true := by
  unfold storeFile
  by_cases hy : (alookup h files).isSome
  · simpa [hy]
  · simp only [hy, Bool.false_eq_true, if_false, alookup]
    by_cases he : h = h2 <;> simp [he, hx]

theorem syncBlocks_frame (st : BlobStorage) (l : List (Nat × List Nat)) :
    (syncBlocks st l).1.blob_cache = st.blob_cache ∧
    (syncBlocks st l).1.hashFn = st.hashFn := by
  induction l generalizing st with
  | nil => exact ⟨rfl, rfl⟩
  | cons p rest ih =>
    obtain ⟨i, data⟩ := p
    exact ih ((storeBlob st data).2)

theorem syncBlocks_files_mono (st : BlobStorage) (l : List (Nat × List Nat))
    (h2 : BlobHash) (hx : (alookup h2 st.files).isSome = true) :
    (alookup h2 (syncBlocks st l).1.files).isSome = true := by
  induction l generalizing st with
  | nil => exact hx
  | cons p rest ih =>
    obtain ⟨i, data⟩ := p
    exact ih ((storeBlob st data).2)
      (alookup_storeFile_mono st.files (st.hashFn data) h2 data hx)

theorem syncBlocks_stored (st : BlobStorage) (l : List (Nat × List Nat)) :
    ∀ p ∈ (syncBlocks st l).2, ∃ data, (p.1, data) ∈ l ∧ p.2 = st.hashFn data ∧
      (alookup p.2 (syncBlocks st l).1.files).isSome = true := by
  induction l generalizing st with
  | nil =>
    intro p hp
    simp [syncBlocks] at hp
  | cons q rest ih =>
    obtain ⟨i, data⟩ := q
    intro p hp
    have hp2 : p = (i, st.hashFn data) ∨ p ∈ (syncBlocks (storeBlob st data).2 rest).2 := by
      simpa [syncBlocks] using List.mem_cons.1 hp
    rcases hp2 with hp2 | hp2
    · refine ⟨data, by simp [hp2], by simp [hp2], ?_⟩
      rw [hp2]
      show (alookup (st.hashFn data) (syncBlocks (storeBlob st data).2 rest).1.files).isSome = true
      exact syncBlocks_files_mono (storeBlob st data).2 rest (st.hashFn data)
        (alookup_storeFile_self st.files (st.hashFn data) data)
    · obtain ⟨d2, hmem, hh, hfiles⟩ := ih (storeBlob st data).2 p hp2
      exact ⟨d2, List.mem_cons_of_mem _ hmem, hh, hfiles⟩

/-- Claim C5: `sync_node` removes the node's blocks from the write-back
cache, and every `(block index, digest)` pair it returns is the hash of a
drained cached block whose blob is afterwards present in the local blob
directory. -/
theorem sync_node_drains_and_stores (st : BlobStorage) (node : NodeId) :
    alookup node (syncNode st node).1.blob_cache = none ∧
    ∀ p ∈ (syncNode st node).2, ∃ data,
      (p.1, data) ∈ (alookup node st.blob_cache).getD [] ∧
      p.2 = st.hashFn data ∧
      (alookup p.2 (syncNode st node).1.files).isSome = true := by
  unfold syncNode
  cases hc : alookup node st.blob_cache with
  | none =>
    refine ⟨hc, ?_⟩
    intro p hp
    simp at hp
  | some blocks =>
    constructor
    · rw [(syncBlocks_frame _ blocks).1]
      exact alookup_filter_ne st.blob_cache node
    · intro p hp
      obtain ⟨data, hmem, hh, hfiles⟩ := syncBlocks_stored _ blocks p hp
      exact ⟨data, by simpa using hmem, hh, hfiles⟩

/-- Witness for `sync_node_drains_and_stores`: draining `c5State`, whose
cache holds the single block `(0, [9, 9])` for node `(0, 0)`, yields the
pair `(0, [2])` (the model hash of a two-byte block). -/
theorem sync_node_drains_and_stores_witness :
    ∃ data, ((0 : Nat), data) ∈ (alookup ((0 : Int), (0 : Int)) c5State.blob_cache).getD [] ∧
      ([2] : BlobHash) = c5State.hashFn data ∧
      (alookup ([2] : BlobHash) (syncNode c5State (0, 0)).1.files).isSome = true :=
  (sync_node_drains_and_stores c5State (0, 0)).2 (0, [2]) (by decide)

end Syncer
